import Mathlib

/-!
Verification development for the training supervisor in `src/train.py` of the
`brap-brain` repository.  The Python source is shallowly embedded below:

* `TrainingMetadata` with `saveDoc` / `loadDoc` / `saveOps` embeds the persisted
  progress record and its JSON (de)serialisation (lines 19-73);
* `initTrainingMeta` embeds the resume-or-fresh logic at the top of
  `do_training` (lines 242-255);
* `runLoop` / `do_training` embed the epoch loop with its graceful-shutdown
  check, per-epoch progress save, cadence-based checkpointing, exception
  handling and terminal (`finally`) handling (lines 256-301);
* `do_management_step` / `do_management` embed the operator console loop
  (lines 313-333).

External effects (the model-training library, file writes, log lines) are
represented as an ordered list of `Event`s; the points at which the Python code
can raise (the training call, the per-epoch metadata save, the checkpoint
write) are fault-injection points driven by an `Env`.
-/

set_option maxRecDepth 8000

namespace BrapBrain

/-- Modelled from the spec: `lib_path.LocalPath` is imported by `src/train.py` but its
defining module is not part of the source snapshot.  The spec describes the tokenizer
reference as an opaque path identifier persisted as a string path relative to a project
root, so we model a `LocalPath` as a wrapper around that project-relative string;
`LocalPath(s)` is `LocalPath.mk s` and `get_project_relative_path` returns the string. -/
structure LocalPath where
  project_relative_path : String
deriving DecidableEq, Repr

def LocalPath.get_project_relative_path (p : LocalPath) : String :=
  p.project_relative_path

/-- Embeds `TrainingMetadata` (`src/train.py` lines 19-39): the persisted training
progress, holding the cumulative number of training steps taken and the path of the
tokenizer index used.  Python integers are unbounded, so `training_iterations : Int`. -/
structure TrainingMetadata where
  training_iterations : Int
  tokenizer_index : LocalPath
deriving DecidableEq, Repr

/-- The JSON object written by `TrainingMetadata.save` (lines 46-54): exactly the two
keys `training_iterations` (integer) and `tokenizer_index` (string, the project-relative
path of the tokenizer index). -/
structure SavedDoc where
  training_iterations : Int
  tokenizer_index : String
deriving DecidableEq, Repr

/-- The object `TrainingMetadata.save` serialises (lines 47-51). -/
def TrainingMetadata.saveDoc (m : TrainingMetadata) : SavedDoc :=
  ⟨m.training_iterations, m.tokenizer_index.get_project_relative_path⟩

/-- `TrainingMetadata.load` (lines 56-73) on a well-formed document: reads the two
required keys and rebuilds the metadata, wrapping the stored string in a `LocalPath`. -/
def TrainingMetadata.loadDoc (d : SavedDoc) : TrainingMetadata :=
  ⟨d.training_iterations, LocalPath.mk d.tokenizer_index⟩

/-- The exact text `json.dump(..., indent=4)` produces for the two-key object written
by `TrainingMetadata.save`. -/
def SavedDoc.render (d : SavedDoc) : String :=
  "\x7b\n    \"training_iterations\": " ++ toString d.training_iterations ++
    ",\n    \"tokenizer_index\": \"" ++ d.tokenizer_index ++ "\"\n\x7d"

/-- File-system operations a write path can perform, for reasoning about what a
concurrent reader of the file could observe between operations. -/
inductive FsOp where
  | openTruncate (path : String)
  | writeChunk (path : String) (data : String)
  | closeFile (path : String)
  | rename (src : String) (dst : String)
deriving DecidableEq, Repr

/-- Effect of one operation on the store (a total map from path to content; a missing
file is modelled as empty content). -/
def applyOp (fs : String → String) : FsOp → (String → String)
  | FsOp.openTruncate p => fun q => if q = p then "" else fs q
  | FsOp.writeChunk p d => fun q => if q = p then fs p ++ d else fs q
  | FsOp.closeFile _ => fs
  | FsOp.rename src dst => fun q => if q = dst then fs src else if q = src then "" else fs q

def applyOps (ops : List FsOp) (fs : String → String) : String → String :=
  ops.foldl applyOp fs

/-- `TrainingMetadata.save` (lines 41-54) as its sequence of file-system operations:
`open(path, "w")` truncates the destination file in place, then the JSON rendering is
written through the handle, then the handle is closed.  No temporary file and no
rename is involved. -/
def TrainingMetadata.saveOps (m : TrainingMetadata) (out_file : String) : List FsOp :=
  [FsOp.openTruncate out_file, FsOp.writeChunk out_file m.saveDoc.render,
   FsOp.closeFile out_file]

/-- Modelled from the spec (the refinement target, deliberately written from the
spec's words rather than the source): a sequence of operations replaces `path`
atomically when, after every prefix of the operations, a reader of `path` observes
either the original content or the final content - never anything else.
Write-to-temp-then-rename has this property. -/
def AtomicForReaders (ops : List FsOp) (path : String) : Prop :=
  ∀ (fs : String → String) (k : Nat),
    applyOps (ops.take k) fs path = fs path ∨
    applyOps (ops.take k) fs path = applyOps ops fs path

/-- Embeds `src/train.py` lines 242-255: the metadata is initialised fresh with zero
iterations; if a progress file exists (`existing = some m`, with `m` the parsed file)
it replaces the fresh value, and a differing stored tokenizer index is overwritten by
the invocation's value after logging one warning.  Returns the in-memory metadata and
the number of warnings logged. -/
def initTrainingMeta (existing : Option TrainingMetadata) (tokenizer_index : LocalPath) :
    TrainingMetadata × Nat :=
  match existing with
  | none => (⟨0, tokenizer_index⟩, 0)
  | some m =>
    if m.tokenizer_index ≠ tokenizer_index then
      (⟨m.training_iterations, tokenizer_index⟩, 1)
    else
      (m, 0)

/-- Parameters of `do_training` relevant to the loop (all Python ints). -/
structure TrainParams where
  targetEpochs : Int
  trainEpochSteps : Int
  checkpointEveryEpochs : Int
  initIterations : Int
deriving Repr

/-- The run's environment: when (if ever) the graceful-exit event becomes set, and at
which epochs the three fallible external calls raise.  `sigSetAt = some t` means the
`threading.Event` is set in time to be observed from the `t`-th loop-condition check
onwards (the check before epoch `t+1`); because `src/train.py` only ever calls
`set()` and never `clear()`, the observed value is monotone by construction. -/
structure Env where
  sigSetAt : Option Nat
  trainFails : Nat → Bool
  epochSaveFails : Nat → Bool
  ckptFails : Nat → Bool

/-- Value of `should_graceful_exit.is_set()` at the `j`-th loop-condition check. -/
def sigAt (env : Env) (j : Nat) : Bool :=
  match env.sigSetAt with
  | none => false
  | some t => decide (t ≤ j)

/-- An environment in which the signal is never set and nothing fails. -/
def envTrivial : Env :=
  ⟨none, fun _ => false, fun _ => false, fun _ => false⟩

/-- Observable actions of one run of `do_training`, in program order.  Epochs are
1-indexed: `epochStart n` is the `model.train` call of epoch `n` (line 266),
`progressSave n it` the per-epoch `training_meta.save` (line 282), `checkpointSave n it`
the checkpoint write of epoch `n` (lines 286-290), `errorLog` the `except` handler
(line 294), `gracefulLog` line 297, `finalSave it` the save in `finally` (line 299),
and `summaryLog` line 301. -/
inductive Event where
  | epochStart (n : Nat)
  | progressSave (n : Nat) (iterations : Int)
  | checkpointSave (n : Nat) (iterations : Int)
  | errorLog
  | gracefulLog
  | finalSave (iterations : Int)
  | summaryLog (epochs : Nat) (stepsThisRun : Int) (iterations : Int)
deriving DecidableEq, Repr

/-- The epoch an event belongs to, when it has one. -/
def Event.epochOf : Event → Option Nat
  | Event.epochStart n => some n
  | Event.progressSave n _ => some n
  | Event.checkpointSave n _ => some n
  | _ => none

/-- Which external call raised the exception that ended the loop. -/
inductive FailKind where
  | train
  | epochSave
  | ckptWrite
deriving DecidableEq, Repr

/-- The loop variables of `do_training`: `num_epochs` (line 258),
`num_epochs_since_checkpoint` (line 261) and `training_meta.training_iterations`. -/
structure LoopState where
  numEpochs : Nat
  sinceCkpt : Nat
  iters : Int
deriving DecidableEq, Repr

/-- The checkpoint decision of line 285, `num_epochs_since_checkpoint >=
checkpoint_every_epochs`, under the name the spec gives it. -/
def shouldCheckpoint (epochsSinceLastCheckpoint : Nat) (cadence : Int) : Bool :=
  decide ((epochsSinceLastCheckpoint : Int) ≥ cadence)

/-- The `while` condition of line 264: `not should_graceful_exit.is_set() and
(num_epochs < target_epochs or target_epochs < 0)`.  The signal is read at check
index `s.numEpochs`: every completed loop iteration increments `numEpochs`, and an
iteration that raises exits the loop, so the `j`-th check always happens with
`numEpochs = j`. -/
def loopCond (p : TrainParams) (env : Env) (s : LoopState) : Bool :=
  !(sigAt env s.numEpochs) &&
    (decide ((s.numEpochs : Int) < p.targetEpochs) || decide (p.targetEpochs < 0))

/-- The `try`-block loop of lines 260-292, with `fuel` bounding how many iterations we
unfold (`none` means the bound was hit before the loop exited on its own).  Returns the
final loop state, which external call (if any) raised, and the events in order. -/
def runLoop (p : TrainParams) (env : Env) :
    Nat → LoopState → Option (LoopState × Option (Nat × FailKind) × List Event)
  | 0, s => if loopCond p env s then none else some (s, none, [])
  | fuel + 1, s =>
    if loopCond p env s then
      if env.trainFails (s.numEpochs + 1) then
        some (s, some (s.numEpochs + 1, FailKind.train), [Event.epochStart (s.numEpochs + 1)])
      else
        if env.epochSaveFails (s.numEpochs + 1) then
          some (⟨s.numEpochs + 1, s.sinceCkpt + 1, s.iters + p.trainEpochSteps⟩,
                some (s.numEpochs + 1, FailKind.epochSave),
                [Event.epochStart (s.numEpochs + 1)])
        else
          if shouldCheckpoint (s.sinceCkpt + 1) p.checkpointEveryEpochs then
            if env.ckptFails (s.numEpochs + 1) then
              some (⟨s.numEpochs + 1, s.sinceCkpt + 1, s.iters + p.trainEpochSteps⟩,
                    some (s.numEpochs + 1, FailKind.ckptWrite),
                    [Event.epochStart (s.numEpochs + 1),
                     Event.progressSave (s.numEpochs + 1) (s.iters + p.trainEpochSteps)])
            else
              (runLoop p env fuel ⟨s.numEpochs + 1, 0, s.iters + p.trainEpochSteps⟩).map
                (fun r =>
                  (r.1, r.2.1,
                   Event.epochStart (s.numEpochs + 1) ::
                   Event.progressSave (s.numEpochs + 1) (s.iters + p.trainEpochSteps) ::
                   Event.checkpointSave (s.numEpochs + 1) (s.iters + p.trainEpochSteps) ::
                   r.2.2))
          else
            (runLoop p env fuel ⟨s.numEpochs + 1, s.sinceCkpt + 1,
                                 s.iters + p.trainEpochSteps⟩).map
              (fun r =>
                (r.1, r.2.1,
                 Event.epochStart (s.numEpochs + 1) ::
                 Event.progressSave (s.numEpochs + 1) (s.iters + p.trainEpochSteps) ::
                 r.2.2))
    else some (s, none, [])

/-- Result of one `do_training` run. -/
structure RunResult where
  numEpochs : Nat
  sinceCkpt : Nat
  iters : Int
  failure : Option (Nat × FailKind)
  sigFinal : Bool
  events : List Event
deriving DecidableEq, Repr

/-- Embeds `do_training` (lines 256-301) given the initial iteration count: the loop
of lines 260-292, the `except` handler of lines 293-294 (the exception is caught and
logged, never re-raised), and the `finally` block of lines 295-301 which logs the
graceful-shutdown line if the signal is set, unconditionally saves the metadata one
last time, and logs the summary line. -/
def do_training (p : TrainParams) (env : Env) (fuel : Nat) : Option RunResult :=
  (runLoop p env fuel ⟨0, 0, p.initIterations⟩).map (fun r =>
    ⟨r.1.numEpochs, r.1.sinceCkpt, r.1.iters, r.2.1, sigAt env r.1.numEpochs,
     r.2.2 ++
       (if (r.2.1).isSome then [Event.errorLog] else []) ++
       (if sigAt env r.1.numEpochs then [Event.gracefulLog] else []) ++
       [Event.finalSave r.1.iters,
        Event.summaryLog r.1.numEpochs ((r.1.numEpochs : Int) * p.trainEpochSteps)
          r.1.iters]⟩)

/-- The spec's terminal states for the worker (§4.4). -/
inductive RunState where
  | stopping
  | completed
  | failed
deriving DecidableEq, Repr

/-- Classification of how the run ended: `failed` when an exception ended the loop,
`stopping` when the loop condition failed because the signal was set (the signal is
the first conjunct checked on line 264), `completed` otherwise (epoch target reached). -/
def RunResult.runState (r : RunResult) : RunState :=
  if r.failure.isSome then RunState.failed
  else if r.sigFinal then RunState.stopping
  else RunState.completed

/-- No external call of the run fails. -/
def NoFailures (env : Env) : Prop :=
  ∀ n, env.trainFails n = false ∧ env.epochSaveFails n = false ∧ env.ckptFails n = false

/-- The checkpoint directory name of line 286: `f"checkpoint-{...}"` applied to the
cumulative iteration count. -/
def checkpointDirName (iterations : Int) : String :=
  "checkpoint-" ++ toString iterations

/-- The checkpoint directory names a run produced, in order. -/
def ckptNames (evs : List Event) : List String :=
  evs.filterMap (fun ev =>
    match ev with
    | Event.checkpointSave _ it => some (checkpointDirName it)
    | _ => none)

/-- The whitespace set Python's `str.strip()` removes (ASCII fragment; `src/train.py`
inputs are console lines). -/
def isPySpace (c : Char) : Bool :=
  c = ' ' || c = '\t' || c = '\n' || c = '\x0d' || c = '\x0b' || c = '\x0c'

/-- Python's `user_input = input().strip()` (line 323): drop leading and trailing
whitespace. -/
def pyStrip (s : String) : String :=
  String.mk (((s.toList.dropWhile isPySpace).reverse.dropWhile isPySpace).reverse)

/-- What the console does with one line. -/
inductive ConsoleAction where
  | quitCmd
  | helpCmd
  | unrecognized (input : String)
deriving DecidableEq, Repr

/-- Embeds the body of the `while True` loop of `do_management` (lines 322-333):
strip the line, then exact, case-sensitive matching against `quit` and `help`. -/
def do_management_step (line : String) : ConsoleAction :=
  if pyStrip line = "quit" then ConsoleAction.quitCmd
  else if pyStrip line = "help" then ConsoleAction.helpCmd
  else ConsoleAction.unrecognized (pyStrip line)

/-- Whether this action sets `should_graceful_exit` and returns from the console loop
(only the `quit` branch, lines 325-328, does either). -/
def ConsoleAction.setsSignal : ConsoleAction → Bool
  | ConsoleAction.quitCmd => true
  | _ => false

/-- The console loop over a sequence of input lines: processes lines in order,
stopping (and setting the signal) at the first `quit`.  Returns whether the signal
was set and the actions taken. -/
def do_management (lines : List String) : Bool × List ConsoleAction :=
  match lines with
  | [] => (false, [])
  | l :: rest =>
    match do_management_step l with
    | ConsoleAction.quitCmd => (true, [ConsoleAction.quitCmd])
    | act =>
      let r := do_management rest
      (r.1, act :: r.2)

/-- Upper bound for the epochs mentioned in a run's trace: the failing epoch when an
external call raised, the number of completed epochs otherwise. -/
def flBound (sf : LoopState) (fl : Option (Nat × FailKind)) : Nat :=
  match fl with
  | some nf => nf.1
  | none => sf.numEpochs

theorem sigAt_mono (env : Env) (i j : Nat) (hij : i ≤ j) (h : sigAt env i = true) :
    sigAt env j = true := by
  unfold sigAt at h ⊢
  cases henv : env.sigSetAt with
  | none => rw [henv] at h; exact absurd h (by simp)
  | some t =>
    rw [henv] at h
    simp only [decide_eq_true_eq] at h ⊢
    omega

/-- Workhorse invariant for `runLoop`, all proved in one induction on the fuel:
epoch count is monotone; the iteration counter advances by exactly the per-epoch step
count for each completed epoch; every event in the trace belongs to an epoch in
`(start, flBound]`; a recorded failure names the epoch right after (for a training
failure) or equal to (for a save/checkpoint failure) the final epoch count and the
corresponding fault flag is set; a failure-free exit means the loop condition is false
at the final state; every check before `flBound` saw the signal unset and the target
not yet reached; every completed epoch whose save did not fault has its progress-save
event, with the correct cumulative iteration count, in the trace; and `flBound`
dominates the final epoch count. -/
theorem runLoop_spec (p : TrainParams) (env : Env) :
    ∀ (fuel : Nat) (s sf : LoopState) (fl : Option (Nat × FailKind)) (tr : List Event),
      runLoop p env fuel s = some (sf, fl, tr) →
      s.numEpochs ≤ sf.numEpochs ∧
      sf.iters = s.iters + ((sf.numEpochs - s.numEpochs : Nat) : Int) * p.trainEpochSteps ∧
      (∀ ev ∈ tr, ∀ n, Event.epochOf ev = some n → s.numEpochs < n ∧ n ≤ flBound sf fl) ∧
      (∀ m kind, fl = some (m, kind) →
        (match kind with
         | FailKind.train => sf.numEpochs + 1 = m ∧ env.trainFails m = true
         | FailKind.epochSave => sf.numEpochs = m ∧ env.epochSaveFails m = true
         | FailKind.ckptWrite => sf.numEpochs = m ∧ env.ckptFails m = true)) ∧
      (fl = none → loopCond p env sf = false) ∧
      (∀ j, s.numEpochs ≤ j → j < flBound sf fl →
        sigAt env j = false ∧ ((j : Int) < p.targetEpochs ∨ p.targetEpochs < 0)) ∧
      (∀ j, s.numEpochs < j → j ≤ sf.numEpochs → env.epochSaveFails j = false →
        Event.progressSave j
          (s.iters + ((j - s.numEpochs : Nat) : Int) * p.trainEpochSteps) ∈ tr) ∧
      sf.numEpochs ≤ flBound sf fl := by
  intro fuel
  induction fuel with
  | zero =>
    intro s sf fl tr h
    simp only [runLoop] at h
    cases hc : loopCond p env s with
    | true => rw [hc] at h; simp at h
    | false =>
      rw [hc] at h
      simp only [Bool.false_eq_true, if_false, Option.some.injEq, Prod.mk.injEq] at h
      obtain ⟨rfl, rfl, rfl⟩ := h
      refine ⟨le_refl _, by simp, by simp, by simp, fun _ => hc, ?_, ?_, le_refl _⟩
      · intro j h1 h2; simp only [flBound] at h2; omega
      · intro j h1 h2 _; omega
  | succ fuel ih =>
    intro s sf fl tr h
    rw [runLoop] at h
    cases hc : loopCond p env s with
    | false =>
      rw [hc] at h
      simp only [Bool.false_eq_true, if_false, Option.some.injEq, Prod.mk.injEq] at h
      obtain ⟨rfl, rfl, rfl⟩ := h
      refine ⟨le_refl _, by simp, by simp, by simp, fun _ => hc, ?_, ?_, le_refl _⟩
      · intro j h1 h2; simp only [flBound] at h2; omega
      · intro j h1 h2 _; omega
    | true =>
      rw [hc] at h
      simp only [if_true] at h
      have hcond : sigAt env s.numEpochs = false ∧
          ((s.numEpochs : Int) < p.targetEpochs ∨ p.targetEpochs < 0) := by
        simp only [loopCond, Bool.and_eq_true, Bool.not_eq_true', Bool.or_eq_true,
          decide_eq_true_eq] at hc
        exact hc
      cases ht : env.trainFails (s.numEpochs + 1) with
      | true =>
        rw [ht] at h
        simp only [if_true, Option.some.injEq, Prod.mk.injEq] at h
        obtain ⟨rfl, rfl, rfl⟩ := h
        refine ⟨le_refl _, by simp, ?_, ?_, ?_, ?_, ?_, by simp [flBound]⟩
        · intro ev hev n hn
          simp only [List.mem_singleton] at hev
          subst hev
          simp only [Event.epochOf, Option.some.injEq] at hn
          subst hn
          exact ⟨Nat.lt_succ_self _, by simp [flBound]⟩
        · intro m kind hfl
          simp only [Option.some.injEq, Prod.mk.injEq] at hfl
          obtain ⟨rfl, rfl⟩ := hfl
          exact ⟨rfl, ht⟩
        · intro hfl; exact absurd hfl (by simp)
        · intro j h1 h2
          simp only [flBound] at h2
          have : j = s.numEpochs := by omega
          subst this
          exact hcond
        · intro j h1 h2 _; omega
      | false =>
        rw [ht] at h
        simp only [Bool.false_eq_true, if_false] at h
        cases hes : env.epochSaveFails (s.numEpochs + 1) with
        | true =>
          rw [hes] at h
          simp only [if_true, Option.some.injEq, Prod.mk.injEq] at h
          obtain ⟨rfl, rfl, rfl⟩ := h
          refine ⟨by simp, by simp, ?_, ?_, ?_, ?_, ?_, by simp [flBound]⟩
          · intro ev hev n hn
            simp only [List.mem_singleton] at hev
            subst hev
            simp only [Event.epochOf, Option.some.injEq] at hn
            subst hn
            exact ⟨Nat.lt_succ_self _, by simp [flBound]⟩
          · intro m kind hfl
            simp only [Option.some.injEq, Prod.mk.injEq] at hfl
            obtain ⟨rfl, rfl⟩ := hfl
            exact ⟨rfl, hes⟩
          · intro hfl; exact absurd hfl (by simp)
          · intro j h1 h2
            simp only [flBound] at h2
            have : j = s.numEpochs := by omega
            subst this
            exact hcond
          · intro j h1 h2 hnf
            have h2x : j ≤ s.numEpochs + 1 := h2
            have : j = s.numEpochs + 1 := by omega
            subst this
            exact absurd hnf (by simp [hes])
        | false =>
          rw [hes] at h
          simp only [Bool.false_eq_true, if_false] at h
          cases hsc : shouldCheckpoint (s.sinceCkpt + 1) p.checkpointEveryEpochs with
          | true =>
            rw [hsc] at h
            simp only [if_true] at h
            cases hcf : env.ckptFails (s.numEpochs + 1) with
            | true =>
              rw [hcf] at h
              simp only [if_true, Option.some.injEq, Prod.mk.injEq] at h
              obtain ⟨rfl, rfl, rfl⟩ := h
              refine ⟨by simp, by simp, ?_, ?_, ?_, ?_, ?_, by simp [flBound]⟩
              · intro ev hev n hn
                simp only [List.mem_cons, List.not_mem_nil, or_false] at hev
                rcases hev with rfl | rfl
                · simp only [Event.epochOf, Option.some.injEq] at hn
                  subst hn
                  exact ⟨Nat.lt_succ_self _, by simp [flBound]⟩
                · simp only [Event.epochOf, Option.some.injEq] at hn
                  subst hn
                  exact ⟨Nat.lt_succ_self _, by simp [flBound]⟩
              · intro m kind hfl
                simp only [Option.some.injEq, Prod.mk.injEq] at hfl
                obtain ⟨rfl, rfl⟩ := hfl
                exact ⟨rfl, hcf⟩
              · intro hfl; exact absurd hfl (by simp)
              · intro j h1 h2
                simp only [flBound] at h2
                have : j = s.numEpochs := by omega
                subst this
                exact hcond
              · intro j h1 h2 _
                have h2x : j ≤ s.numEpochs + 1 := h2
                have : j = s.numEpochs + 1 := by omega
                subst this
                simp only [List.mem_cons]
                right; left
                congr 1
                simp
            | false =>
              rw [hcf] at h
              simp only [Bool.false_eq_true, if_false] at h
              cases hrec : runLoop p env fuel
                  ⟨s.numEpochs + 1, 0, s.iters + p.trainEpochSteps⟩ with
              | none => rw [hrec] at h; simp at h
              | some val =>
                obtain ⟨sf2, fl2, tr2⟩ := val
                rw [hrec] at h
                simp only [Option.map_some', Option.some.injEq, Prod.mk.injEq] at h
                obtain ⟨rfl, rfl, rfl⟩ := h
                obtain ⟨ih1, ih2, ih3, ih4, ih5, ih6, ih7, ih8⟩ := ih _ _ _ _ hrec
                have hsn : (⟨s.numEpochs + 1, 0, s.iters + p.trainEpochSteps⟩ :
                    LoopState).numEpochs = s.numEpochs + 1 := rfl
                have hsi : (⟨s.numEpochs + 1, 0, s.iters + p.trainEpochSteps⟩ :
                    LoopState).iters = s.iters + p.trainEpochSteps := rfl
                simp only [hsn, hsi] at ih1 ih2 ih3 ih6 ih7
                have hnb : s.numEpochs + 1 ≤ flBound sf2 fl2 := le_trans ih1 ih8
                refine ⟨by omega, ?_, ?_, ih4, ih5, ?_, ?_, ih8⟩
                · rw [ih2]
                  have hca : ((sf2.numEpochs - s.numEpochs : Nat) : Int) =
                      ((sf2.numEpochs - (s.numEpochs + 1) : Nat) : Int) + 1 := by omega
                  rw [hca]; ring
                · intro ev hev n hn
                  simp only [List.mem_cons] at hev
                  rcases hev with rfl | rfl | rfl | hev
                  · simp only [Event.epochOf, Option.some.injEq] at hn
                    subst hn
                    exact ⟨Nat.lt_succ_self _, hnb⟩
                  · simp only [Event.epochOf, Option.some.injEq] at hn
                    subst hn
                    exact ⟨Nat.lt_succ_self _, hnb⟩
                  · simp only [Event.epochOf, Option.some.injEq] at hn
                    subst hn
                    exact ⟨Nat.lt_succ_self _, hnb⟩
                  · obtain ⟨ha, hb⟩ := ih3 ev hev n hn
                    exact ⟨by omega, hb⟩
                · intro j h1 h2
                  rcases Nat.eq_or_lt_of_le h1 with rfl | h1'
                  · exact hcond
                  · exact ih6 j (by omega) h2
                · intro j h1 h2 hnf
                  rcases Nat.eq_or_lt_of_le (Nat.succ_le_of_lt h1) with h1' | h1'
                  · simp only [List.mem_cons]
                    right; left
                    congr 1
                    · omega
                    · have : ((j - s.numEpochs : Nat) : Int) = 1 := by omega
                      rw [this]; ring
                  · have := ih7 j (by omega) h2 hnf
                    simp only [List.mem_cons]
                    right; right; right
                    have hca : s.iters + p.trainEpochSteps +
                        ((j - (s.numEpochs + 1) : Nat) : Int) * p.trainEpochSteps =
                        s.iters + ((j - s.numEpochs : Nat) : Int) * p.trainEpochSteps := by
                      have : ((j - s.numEpochs : Nat) : Int) =
                          ((j - (s.numEpochs + 1) : Nat) : Int) + 1 := by omega
                      rw [this]; ring
                    rw [← hca]
                    exact this
          | false =>
            rw [hsc] at h
            simp only [Bool.false_eq_true, if_false] at h
            cases hrec : runLoop p env fuel
                ⟨s.numEpochs + 1, s.sinceCkpt + 1, s.iters + p.trainEpochSteps⟩ with
            | none => rw [hrec] at h; simp at h
            | some val =>
              obtain ⟨sf2, fl2, tr2⟩ := val
              rw [hrec] at h
              simp only [Option.map_some', Option.some.injEq, Prod.mk.injEq] at h
              obtain ⟨rfl, rfl, rfl⟩ := h
              obtain ⟨ih1, ih2, ih3, ih4, ih5, ih6, ih7, ih8⟩ := ih _ _ _ _ hrec
              have hsn : (⟨s.numEpochs + 1, s.sinceCkpt + 1, s.iters + p.trainEpochSteps⟩ :
                  LoopState).numEpochs = s.numEpochs + 1 := rfl
              have hsi : (⟨s.numEpochs + 1, s.sinceCkpt + 1, s.iters + p.trainEpochSteps⟩ :
                  LoopState).iters = s.iters + p.trainEpochSteps := rfl
              simp only [hsn, hsi] at ih1 ih2 ih3 ih6 ih7
              have hnb : s.numEpochs + 1 ≤ flBound sf2 fl2 := le_trans ih1 ih8
              refine ⟨by omega, ?_, ?_, ih4, ih5, ?_, ?_, ih8⟩
              · rw [ih2]
                have hca : ((sf2.numEpochs - s.numEpochs : Nat) : Int) =
                    ((sf2.numEpochs - (s.numEpochs + 1) : Nat) : Int) + 1 := by omega
                rw [hca]; ring
              · intro ev hev n hn
                simp only [List.mem_cons] at hev
                rcases hev with rfl | rfl | hev
                · simp only [Event.epochOf, Option.some.injEq] at hn
                  subst hn
                  exact ⟨Nat.lt_succ_self _, hnb⟩
                · simp only [Event.epochOf, Option.some.injEq] at hn
                  subst hn
                  exact ⟨Nat.lt_succ_self _, hnb⟩
                · obtain ⟨ha, hb⟩ := ih3 ev hev n hn
                  exact ⟨by omega, hb⟩
              · intro j h1 h2
                rcases Nat.eq_or_lt_of_le h1 with rfl | h1'
                · exact hcond
                · exact ih6 j (by omega) h2
              · intro j h1 h2 hnf
                rcases Nat.eq_or_lt_of_le (Nat.succ_le_of_lt h1) with h1' | h1'
                · simp only [List.mem_cons]
                  right; left
                  congr 1
                  · omega
                  · have : ((j - s.numEpochs : Nat) : Int) = 1 := by omega
                    rw [this]; ring
                · have := ih7 j (by omega) h2 hnf
                  simp only [List.mem_cons]
                  right; right
                  have hca : s.iters + p.trainEpochSteps +
                      ((j - (s.numEpochs + 1) : Nat) : Int) * p.trainEpochSteps =
                      s.iters + ((j - s.numEpochs : Nat) : Int) * p.trainEpochSteps := by
                    have : ((j - s.numEpochs : Nat) : Int) =
                        ((j - (s.numEpochs + 1) : Nat) : Int) + 1 := by omega
                    rw [this]; ring
                  rw [← hca]
                  exact this

theorem shouldCheckpoint_pos (k : Nat) (cad : Int) (hc : 0 < cad) :
    shouldCheckpoint k cad = decide (cad.toNat ≤ k) := by
  unfold shouldCheckpoint
  simp only [ge_iff_le, decide_eq_decide]
  omega

theorem ckpt_dvd_step (Cn ck e : Nat) (h1 : ck ≤ e) (h2 : Cn ∣ (e - ck)) (h3 : ck + 1 = Cn) :
    Cn ∣ (e + 1) := by
  obtain ⟨a, ha⟩ := h2
  refine ⟨a + 1, ?_⟩
  rw [Nat.mul_succ]
  omega

theorem ckpt_not_dvd (Cn ck e : Nat) (h1 : ck ≤ e) (h2 : Cn ∣ (e - ck)) (h3 : ck + 1 < Cn) :
    ¬ Cn ∣ (e + 1) := by
  intro hd
  obtain ⟨a, ha⟩ := h2
  obtain ⟨b, hb⟩ := hd
  have hab : a < b := by
    have h4 : Cn * a < Cn * b := by omega
    exact Nat.lt_of_mul_lt_mul_left h4
  have h5 : Cn * (a + 1) ≤ Cn * b := Nat.mul_le_mul_left Cn hab
  rw [Nat.mul_succ] at h5
  omega

theorem iters_shift (base steps : Int) (a n : Nat) (h : a < n) :
    base + steps + ((n - (a + 1) : Nat) : Int) * steps =
      base + ((n - a : Nat) : Int) * steps := by
  have hca : ((n - a : Nat) : Int) = ((n - (a + 1) : Nat) : Int) + 1 := by omega
  rw [hca]; ring

/-- Checkpoint characterisation for a positive cadence: starting from a state whose
since-last-checkpoint counter is consistent with the epoch count (below the cadence and
congruent to the epoch count modulo the cadence), a failure-free run's trace contains
`checkpointSave n _` exactly for the epochs `n` in range that are multiples of the
cadence, and the recorded iteration count is the cumulative count after epoch `n`. -/
theorem runLoop_ckpt_pos (p : TrainParams) (env : Env)
    (hc : 0 < p.checkpointEveryEpochs) (hnf : NoFailures env) :
    ∀ (fuel : Nat) (s sf : LoopState) (fl : Option (Nat × FailKind)) (tr : List Event),
      runLoop p env fuel s = some (sf, fl, tr) →
      s.sinceCkpt ≤ s.numEpochs →
      s.sinceCkpt < p.checkpointEveryEpochs.toNat →
      p.checkpointEveryEpochs.toNat ∣ (s.numEpochs - s.sinceCkpt) →
      ∀ (n : Nat) (iters : Int),
        (Event.checkpointSave n iters ∈ tr ↔
          (s.numEpochs < n ∧ n ≤ sf.numEpochs ∧ p.checkpointEveryEpochs.toNat ∣ n ∧
           iters = s.iters + ((n - s.numEpochs : Nat) : Int) * p.trainEpochSteps)) := by
  intro fuel
  induction fuel with
  | zero =>
    intro s sf fl tr h hk1 hk2 hk3 n iters
    simp only [runLoop] at h
    cases hcnd : loopCond p env s with
    | true => rw [hcnd] at h; simp at h
    | false =>
      rw [hcnd] at h
      simp only [Bool.false_eq_true, if_false, Option.some.injEq, Prod.mk.injEq] at h
      obtain ⟨rfl, rfl, rfl⟩ := h
      simp only [List.not_mem_nil, false_iff, not_and]
      intro h1 h2
      omega
  | succ fuel ih =>
    intro s sf fl tr h hk1 hk2 hk3 n iters
    rw [runLoop] at h
    cases hcnd : loopCond p env s with
    | false =>
      rw [hcnd] at h
      simp only [Bool.false_eq_true, if_false, Option.some.injEq, Prod.mk.injEq] at h
      obtain ⟨rfl, rfl, rfl⟩ := h
      simp only [List.not_mem_nil, false_iff, not_and]
      intro h1 h2
      omega
    | true =>
      rw [hcnd] at h
      simp only [if_true] at h
      rw [(hnf (s.numEpochs + 1)).1] at h
      simp only [Bool.false_eq_true, if_false] at h
      rw [(hnf (s.numEpochs + 1)).2.1] at h
      simp only [Bool.false_eq_true, if_false] at h
      cases hsc : shouldCheckpoint (s.sinceCkpt + 1) p.checkpointEveryEpochs with
      | true =>
        rw [hsc] at h
        simp only [if_true] at h
        rw [(hnf (s.numEpochs + 1)).2.2] at h
        simp only [Bool.false_eq_true, if_false] at h
        cases hrec : runLoop p env fuel ⟨s.numEpochs + 1, 0, s.iters + p.trainEpochSteps⟩ with
        | none => rw [hrec] at h; simp at h
        | some val =>
          obtain ⟨sf2, fl2, tr2⟩ := val
          rw [hrec] at h
          simp only [Option.map_some', Option.some.injEq, Prod.mk.injEq] at h
          obtain ⟨rfl, rfl, rfl⟩ := h
          have hCeq : s.sinceCkpt + 1 = p.checkpointEveryEpochs.toNat := by
            rw [shouldCheckpoint_pos _ _ hc] at hsc
            simp only [decide_eq_true_eq] at hsc
            omega
          have hdvd1 : p.checkpointEveryEpochs.toNat ∣ (s.numEpochs + 1) :=
            ckpt_dvd_step _ _ _ hk1 hk3 hCeq
          have h1' : s.numEpochs + 1 ≤ sf2.numEpochs :=
            (runLoop_spec p env fuel _ _ _ _ hrec).1
          have ihx := ih _ _ _ _ hrec (Nat.zero_le _)
            (show (0 : Nat) < p.checkpointEveryEpochs.toNat by omega)
            (by simpa using hdvd1) n iters
          have hsn : (⟨s.numEpochs + 1, 0, s.iters + p.trainEpochSteps⟩ :
              LoopState).numEpochs = s.numEpochs + 1 := rfl
          have hsi : (⟨s.numEpochs + 1, 0, s.iters + p.trainEpochSteps⟩ :
              LoopState).iters = s.iters + p.trainEpochSteps := rfl
          rw [hsn, hsi] at ihx
          constructor
          · intro hmem
            simp only [List.mem_cons] at hmem
            rcases hmem with heq | heq | heq | hmem
            · exact absurd heq (by simp)
            · exact absurd heq (by simp)
            · simp only [Event.checkpointSave.injEq] at heq
              obtain ⟨rfl, rfl⟩ := heq
              refine ⟨Nat.lt_succ_self _, h1', hdvd1, ?_⟩
              have : ((s.numEpochs + 1 - s.numEpochs : Nat) : Int) = 1 := by omega
              rw [this]; ring
            · obtain ⟨ha, hb, hd, hi⟩ := ihx.mp hmem
              refine ⟨by omega, hb, hd, ?_⟩
              rw [hi]
              exact iters_shift _ _ _ _ (by omega)
          · rintro ⟨hn1, hn2, hdv, hit⟩
            simp only [List.mem_cons]
            rcases Nat.eq_or_lt_of_le (Nat.succ_le_of_lt hn1) with heq | hlt
            · right; right; left
              rw [← heq]
              congr 1
              rw [hit, ← heq]
              have h9 : ((s.numEpochs.succ - s.numEpochs : Nat) : Int) = 1 := by omega
              rw [h9]; ring
            · right; right; right
              refine ihx.mpr ⟨by omega, hn2, hdv, ?_⟩
              rw [hit]
              exact (iters_shift _ _ _ _ (by omega)).symm
      | false =>
        rw [hsc] at h
        simp only [Bool.false_eq_true, if_false] at h
        cases hrec : runLoop p env fuel
            ⟨s.numEpochs + 1, s.sinceCkpt + 1, s.iters + p.trainEpochSteps⟩ with
        | none => rw [hrec] at h; simp at h
        | some val =>
          obtain ⟨sf2, fl2, tr2⟩ := val
          rw [hrec] at h
          simp only [Option.map_some', Option.some.injEq, Prod.mk.injEq] at h
          obtain ⟨rfl, rfl, rfl⟩ := h
          have hClt : s.sinceCkpt + 1 < p.checkpointEveryEpochs.toNat := by
            rw [shouldCheckpoint_pos _ _ hc] at hsc
            simp only [decide_eq_false_iff_not, not_le] at hsc
            omega
          have hnd : ¬ p.checkpointEveryEpochs.toNat ∣ (s.numEpochs + 1) :=
            ckpt_not_dvd _ _ _ hk1 hk3 hClt
          have hdvd2 : p.checkpointEveryEpochs.toNat ∣
              (s.numEpochs + 1 - (s.sinceCkpt + 1)) := by
            have : s.numEpochs + 1 - (s.sinceCkpt + 1) = s.numEpochs - s.sinceCkpt := by
              omega
            rw [this]; exact hk3
          have ihx := ih _ _ _ _ hrec
            (show s.sinceCkpt + 1 ≤ s.numEpochs + 1 by omega)
            (show s.sinceCkpt + 1 < p.checkpointEveryEpochs.toNat from hClt)
            (by simpa using hdvd2) n iters
          have hsn : (⟨s.numEpochs + 1, s.sinceCkpt + 1, s.iters + p.trainEpochSteps⟩ :
              LoopState).numEpochs = s.numEpochs + 1 := rfl
          have hsi : (⟨s.numEpochs + 1, s.sinceCkpt + 1, s.iters + p.trainEpochSteps⟩ :
              LoopState).iters = s.iters + p.trainEpochSteps := rfl
          rw [hsn, hsi] at ihx
          constructor
          · intro hmem
            simp only [List.mem_cons] at hmem
            rcases hmem with heq | heq | hmem
            · exact absurd heq (by simp)
            · exact absurd heq (by simp)
            · obtain ⟨ha, hb, hd, hi⟩ := ihx.mp hmem
              refine ⟨by omega, hb, hd, ?_⟩
              rw [hi]
              exact iters_shift _ _ _ _ (by omega)
          · rintro ⟨hn1, hn2, hdv, hit⟩
            simp only [List.mem_cons]
            rcases Nat.eq_or_lt_of_le (Nat.succ_le_of_lt hn1) with heq | hlt
            · have hne : n = s.numEpochs + 1 := by omega
              rw [hne] at hdv
              exact absurd hdv hnd
            · right; right
              refine ihx.mpr ⟨by omega, hn2, hdv, ?_⟩
              rw [hit]
              exact (iters_shift _ _ _ _ (by omega)).symm

/-- Checkpoint characterisation for a non-positive cadence: the line-285 test
`num_epochs_since_checkpoint >= checkpoint_every_epochs` is then true after every
epoch, so a failure-free run checkpoints on every completed epoch. -/
theorem runLoop_ckpt_nonpos (p : TrainParams) (env : Env)
    (hc : p.checkpointEveryEpochs ≤ 0) (hnf : NoFailures env) :
    ∀ (fuel : Nat) (s sf : LoopState) (fl : Option (Nat × FailKind)) (tr : List Event),
      runLoop p env fuel s = some (sf, fl, tr) →
      ∀ (n : Nat) (iters : Int),
        (Event.checkpointSave n iters ∈ tr ↔
          (s.numEpochs < n ∧ n ≤ sf.numEpochs ∧
           iters = s.iters + ((n - s.numEpochs : Nat) : Int) * p.trainEpochSteps)) := by
  intro fuel
  induction fuel with
  | zero =>
    intro s sf fl tr h n iters
    simp only [runLoop] at h
    cases hcnd : loopCond p env s with
    | true => rw [hcnd] at h; simp at h
    | false =>
      rw [hcnd] at h
      simp only [Bool.false_eq_true, if_false, Option.some.injEq, Prod.mk.injEq] at h
      obtain ⟨rfl, rfl, rfl⟩ := h
      simp only [List.not_mem_nil, false_iff, not_and]
      intro h1 h2
      omega
  | succ fuel ih =>
    intro s sf fl tr h n iters
    rw [runLoop] at h
    cases hcnd : loopCond p env s with
    | false =>
      rw [hcnd] at h
      simp only [Bool.false_eq_true, if_false, Option.some.injEq, Prod.mk.injEq] at h
      obtain ⟨rfl, rfl, rfl⟩ := h
      simp only [List.not_mem_nil, false_iff, not_and]
      intro h1 h2
      omega
    | true =>
      rw [hcnd] at h
      simp only [if_true] at h
      rw [(hnf (s.numEpochs + 1)).1] at h
      simp only [Bool.false_eq_true, if_false] at h
      rw [(hnf (s.numEpochs + 1)).2.1] at h
      simp only [Bool.false_eq_true, if_false] at h
      have hsc : shouldCheckpoint (s.sinceCkpt + 1) p.checkpointEveryEpochs = true := by
        simp only [shouldCheckpoint, ge_iff_le, decide_eq_true_eq]
        omega
      rw [hsc] at h
      simp only [if_true] at h
      rw [(hnf (s.numEpochs + 1)).2.2] at h
      simp only [Bool.false_eq_true, if_false] at h
      cases hrec : runLoop p env fuel ⟨s.numEpochs + 1, 0, s.iters + p.trainEpochSteps⟩ with
      | none => rw [hrec] at h; simp at h
      | some val =>
        obtain ⟨sf2, fl2, tr2⟩ := val
        rw [hrec] at h
        simp only [Option.map_some', Option.some.injEq, Prod.mk.injEq] at h
        obtain ⟨rfl, rfl, rfl⟩ := h
        have h1' : s.numEpochs + 1 ≤ sf2.numEpochs :=
          (runLoop_spec p env fuel _ _ _ _ hrec).1
        have ihx := ih _ _ _ _ hrec n iters
        have hsn : (⟨s.numEpochs + 1, 0, s.iters + p.trainEpochSteps⟩ :
            LoopState).numEpochs = s.numEpochs + 1 := rfl
        have hsi : (⟨s.numEpochs + 1, 0, s.iters + p.trainEpochSteps⟩ :
            LoopState).iters = s.iters + p.trainEpochSteps := rfl
        rw [hsn, hsi] at ihx
        constructor
        · intro hmem
          simp only [List.mem_cons] at hmem
          rcases hmem with heq | heq | heq | hmem
          · exact absurd heq (by simp)
          · exact absurd heq (by simp)
          · simp only [Event.checkpointSave.injEq] at heq
            obtain ⟨rfl, rfl⟩ := heq
            refine ⟨Nat.lt_succ_self _, h1', ?_⟩
            have : ((s.numEpochs + 1 - s.numEpochs : Nat) : Int) = 1 := by omega
            rw [this]; ring
          · obtain ⟨ha, hb, hi⟩ := ihx.mp hmem
            refine ⟨by omega, hb, ?_⟩
            rw [hi]
            exact iters_shift _ _ _ _ (by omega)
        · rintro ⟨hn1, hn2, hit⟩
          simp only [List.mem_cons]
          rcases Nat.eq_or_lt_of_le (Nat.succ_le_of_lt hn1) with heq | hlt
          · right; right; left
            rw [← heq]
            congr 1
            rw [hit, ← heq]
            have h9 : ((s.numEpochs.succ - s.numEpochs : Nat) : Int) = 1 := by omega
            rw [h9]; ring
          · right; right; right
            refine ihx.mpr ⟨by omega, hn2, ?_⟩
            rw [hit]
            exact (iters_shift _ _ _ _ (by omega)).symm

/-- Companion invariant: a recorded failure happened strictly after the start state's
epoch count; every event the loop itself emits is an epoch event (`epochStart`,
`progressSave` or `checkpointSave`); a checkpoint-write failure at epoch `m` happens
after epoch `m`'s progress save (which is therefore in the trace, with the final
iteration count); and a training failure at epoch `m` happens after `model.train` was
called for epoch `m` (so `epochStart m` is in the trace). -/
theorem runLoop_extra (p : TrainParams) (env : Env) :
    ∀ (fuel : Nat) (s sf : LoopState) (fl : Option (Nat × FailKind)) (tr : List Event),
      runLoop p env fuel s = some (sf, fl, tr) →
      (∀ m kind, fl = some (m, kind) → s.numEpochs < m) ∧
      (∀ ev ∈ tr, (Event.epochOf ev).isSome = true) ∧
      (∀ m, fl = some (m, FailKind.ckptWrite) → Event.progressSave m sf.iters ∈ tr) ∧
      (∀ m, fl = some (m, FailKind.train) → Event.epochStart m ∈ tr) := by
  intro fuel
  induction fuel with
  | zero =>
    intro s sf fl tr h
    simp only [runLoop] at h
    cases hc : loopCond p env s with
    | true => rw [hc] at h; simp at h
    | false =>
      rw [hc] at h
      simp only [Bool.false_eq_true, if_false, Option.some.injEq, Prod.mk.injEq] at h
      obtain ⟨rfl, rfl, rfl⟩ := h
      exact ⟨by simp, by simp, by simp, by simp⟩
  | succ fuel ih =>
    intro s sf fl tr h
    rw [runLoop] at h
    cases hc : loopCond p env s with
    | false =>
      rw [hc] at h
      simp only [Bool.false_eq_true, if_false, Option.some.injEq, Prod.mk.injEq] at h
      obtain ⟨rfl, rfl, rfl⟩ := h
      exact ⟨by simp, by simp, by simp, by simp⟩
    | true =>
      rw [hc] at h
      simp only [if_true] at h
      cases ht : env.trainFails (s.numEpochs + 1) with
      | true =>
        rw [ht] at h
        simp only [if_true, Option.some.injEq, Prod.mk.injEq] at h
        obtain ⟨rfl, rfl, rfl⟩ := h
        refine ⟨?_, ?_, ?_, ?_⟩
        · intro m kind hfl
          simp only [Option.some.injEq, Prod.mk.injEq] at hfl
          obtain ⟨h1, -⟩ := hfl
          omega
        · intro ev hev
          simp only [List.mem_singleton] at hev
          subst hev
          simp [Event.epochOf]
        · intro m hfl
          simp at hfl
        · intro m hfl
          simp only [Option.some.injEq, Prod.mk.injEq] at hfl
          obtain ⟨rfl, -⟩ := hfl
          simp
      | false =>
        rw [ht] at h
        simp only [Bool.false_eq_true, if_false] at h
        cases hes : env.epochSaveFails (s.numEpochs + 1) with
        | true =>
          rw [hes] at h
          simp only [if_true, Option.some.injEq, Prod.mk.injEq] at h
          obtain ⟨rfl, rfl, rfl⟩ := h
          refine ⟨?_, ?_, ?_, ?_⟩
          · intro m kind hfl
            simp only [Option.some.injEq, Prod.mk.injEq] at hfl
            obtain ⟨h1, -⟩ := hfl
            omega
          · intro ev hev
            simp only [List.mem_singleton] at hev
            subst hev
            simp [Event.epochOf]
          · intro m hfl
            simp at hfl
          · intro m hfl
            simp at hfl
        | false =>
          rw [hes] at h
          simp only [Bool.false_eq_true, if_false] at h
          cases hsc : shouldCheckpoint (s.sinceCkpt + 1) p.checkpointEveryEpochs with
          | true =>
            rw [hsc] at h
            simp only [if_true] at h
            cases hcf : env.ckptFails (s.numEpochs + 1) with
            | true =>
              rw [hcf] at h
              simp only [if_true, Option.some.injEq, Prod.mk.injEq] at h
              obtain ⟨rfl, rfl, rfl⟩ := h
              refine ⟨?_, ?_, ?_, ?_⟩
              · intro m kind hfl
                simp only [Option.some.injEq, Prod.mk.injEq] at hfl
                obtain ⟨h1, -⟩ := hfl
                omega
              · intro ev hev
                simp only [List.mem_cons, List.not_mem_nil, or_false] at hev
                rcases hev with rfl | rfl <;> simp [Event.epochOf]
              · intro m hfl
                simp only [Option.some.injEq, Prod.mk.injEq] at hfl
                obtain ⟨rfl, -⟩ := hfl
                simp
              · intro m hfl
                simp at hfl
            | false =>
              rw [hcf] at h
              simp only [Bool.false_eq_true, if_false] at h
              cases hrec : runLoop p env fuel
                  ⟨s.numEpochs + 1, 0, s.iters + p.trainEpochSteps⟩ with
              | none => rw [hrec] at h; simp at h
              | some val =>
                obtain ⟨sf2, fl2, tr2⟩ := val
                rw [hrec] at h
                simp only [Option.map_some', Option.some.injEq, Prod.mk.injEq] at h
                obtain ⟨rfl, rfl, rfl⟩ := h
                obtain ⟨iha, ihb, ihc, ihd⟩ := ih _ _ _ _ hrec
                refine ⟨?_, ?_, ?_, ?_⟩
                · intro m kind hfl
                  have hx : s.numEpochs + 1 < m := iha m kind hfl
                  omega
                · intro ev hev
                  simp only [List.mem_cons] at hev
                  rcases hev with rfl | rfl | rfl | hev
                  · simp [Event.epochOf]
                  · simp [Event.epochOf]
                  · simp [Event.epochOf]
                  · exact ihb ev hev
                · intro m hfl
                  have := ihc m hfl
                  simp only [List.mem_cons]
                  right; right; right
                  exact this
                · intro m hfl
                  have := ihd m hfl
                  simp only [List.mem_cons]
                  right; right; right
                  exact this
          | false =>
            rw [hsc] at h
            simp only [Bool.false_eq_true, if_false] at h
            cases hrec : runLoop p env fuel
                ⟨s.numEpochs + 1, s.sinceCkpt + 1, s.iters + p.trainEpochSteps⟩ with
            | none => rw [hrec] at h; simp at h
            | some val =>
              obtain ⟨sf2, fl2, tr2⟩ := val
              rw [hrec] at h
              simp only [Option.map_some', Option.some.injEq, Prod.mk.injEq] at h
              obtain ⟨rfl, rfl, rfl⟩ := h
              obtain ⟨iha, ihb, ihc, ihd⟩ := ih _ _ _ _ hrec
              refine ⟨?_, ?_, ?_, ?_⟩
              · intro m kind hfl
                have hx : s.numEpochs + 1 < m := iha m kind hfl
                omega
              · intro ev hev
                simp only [List.mem_cons] at hev
                rcases hev with rfl | rfl | hev
                · simp [Event.epochOf]
                · simp [Event.epochOf]
                · exact ihb ev hev
              · intro m hfl
                have := ihc m hfl
                simp only [List.mem_cons]
                right; right
                exact this
              · intro m hfl
                have := ihd m hfl
                simp only [List.mem_cons]
                right; right
                exact this


/-- In a failure-free environment the loop never records a failure. -/
theorem noFailures_failure_none (p : TrainParams) (env : Env) (fuel : Nat)
    (s sf : LoopState) (fl : Option (Nat × FailKind)) (tr : List Event)
    (hnf : NoFailures env) (h : runLoop p env fuel s = some (sf, fl, tr)) :
    fl = none := by
  cases fl with
  | none => rfl
  | some mk =>
    obtain ⟨m, kind⟩ := mk
    have h4 := (runLoop_spec p env fuel _ _ _ _ h).2.2.2.1 m kind rfl
    exfalso
    cases kind with
    | train =>
      obtain ⟨-, hflag⟩ := h4
      have := (hnf m).1
      rw [this] at hflag
      exact absurd hflag (by simp)
    | epochSave =>
      obtain ⟨-, hflag⟩ := h4
      have := (hnf m).2.1
      rw [this] at hflag
      exact absurd hflag (by simp)
    | ckptWrite =>
      obtain ⟨-, hflag⟩ := h4
      have := (hnf m).2.2
      rw [this] at hflag
      exact absurd hflag (by simp)

/-- Unpacks a successful `do_training` run into its loop result and event layout. -/
theorem do_training_dest (p : TrainParams) (env : Env) (fuel : Nat) (r : RunResult)
    (h : do_training p env fuel = some r) :
    ∃ sf fl tr, runLoop p env fuel ⟨0, 0, p.initIterations⟩ = some (sf, fl, tr) ∧
      r.numEpochs = sf.numEpochs ∧ r.sinceCkpt = sf.sinceCkpt ∧ r.iters = sf.iters ∧
      r.failure = fl ∧ r.sigFinal = sigAt env sf.numEpochs ∧
      r.events = tr ++
        (if fl.isSome then [Event.errorLog] else []) ++
        (if sigAt env sf.numEpochs then [Event.gracefulLog] else []) ++
        [Event.finalSave sf.iters,
         Event.summaryLog sf.numEpochs ((sf.numEpochs : Int) * p.trainEpochSteps)
           sf.iters] := by
  unfold do_training at h
  cases hrec : runLoop p env fuel ⟨0, 0, p.initIterations⟩ with
  | none => rw [hrec] at h; simp at h
  | some val =>
    obtain ⟨sf, fl, tr⟩ := val
    rw [hrec] at h
    simp only [Option.map_some', Option.some.injEq] at h
    subst h
    exact ⟨sf, fl, tr, rfl, rfl, rfl, rfl, rfl, rfl, rfl⟩

/-- An epoch event is never one of the four events appended after the loop. -/
theorem epoch_event_mem (ev : Event) (hev : (Event.epochOf ev).isSome = true)
    (tr : List Event) (b1 b2 : Bool) (itf its st : Int) (ne : Nat) :
    (ev ∈ tr ++ (if b1 then [Event.errorLog] else []) ++
        (if b2 then [Event.gracefulLog] else []) ++
        [Event.finalSave itf, Event.summaryLog ne st its]) ↔ ev ∈ tr := by
  simp only [List.mem_append]
  constructor
  · rintro (((h | h) | h) | h)
    · exact h
    · cases b1 <;> cases ev <;> simp_all [Event.epochOf]
    · cases b2 <;> cases ev <;> simp_all [Event.epochOf]
    · cases ev <;> simp_all [Event.epochOf]
  · intro h
    exact Or.inl (Or.inl (Or.inl h))

/-- Claim C4: the checkpoint decision of line 285 is `shouldCheckpoint(k, C) = (k ≥ C)`
for all non-negative `k`, and in a failure-free run with positive cadence `C` the
checkpoints are produced exactly on epochs `C, 2C, 3C, ...` (the since-last-checkpoint
counter being reset to 0 each time a checkpoint is taken) and never on any other
epoch; the checkpoint of epoch `n` records the cumulative iteration count after epoch
`n`. -/
theorem c4_checkpoint_cadence (k : Nat) (C : Int) (p : TrainParams) (env : Env)
    (fuel : Nat) (r : RunResult) (n : Nat) (iters : Int)
    (hC : 0 < p.checkpointEveryEpochs) (hnf : NoFailures env)
    (hrun : do_training p env fuel = some r) :
    shouldCheckpoint k C = decide (C ≤ (k : Int)) ∧
    (Event.checkpointSave n iters ∈ r.events ↔
      (1 ≤ n ∧ n ≤ r.numEpochs ∧ p.checkpointEveryEpochs.toNat ∣ n ∧
       iters = p.initIterations + (n : Int) * p.trainEpochSteps)) := by
  obtain ⟨sf, fl, tr, hrl, he1, he2, he3, he4, he5, he6⟩ := do_training_dest p env fuel r hrun
  refine ⟨by unfold shouldCheckpoint; simp [ge_iff_le], ?_⟩
  have hch := runLoop_ckpt_pos p env hC hnf fuel _ _ _ _ hrl (Nat.le_refl 0)
    (show (0 : Nat) < p.checkpointEveryEpochs.toNat by omega) (dvd_zero _) n iters
  have hz1 : (⟨0, 0, p.initIterations⟩ : LoopState).numEpochs = 0 := rfl
  have hz2 : (⟨0, 0, p.initIterations⟩ : LoopState).iters = p.initIterations := rfl
  rw [hz1, hz2] at hch
  have hcast : ((n - 0 : Nat) : Int) = (n : Int) := by omega
  rw [hcast] at hch
  rw [he6, epoch_event_mem _ (by simp [Event.epochOf]) _ _ _ _ _ _ _, hch, he1]
  constructor
  · rintro ⟨h1, h2, h3, h4⟩
    exact ⟨by omega, h2, h3, h4⟩
  · rintro ⟨h1, h2, h3, h4⟩
    exact ⟨by omega, h2, h3, h4⟩

/-- Concrete run used to witness claim C4: target 2 epochs, 100 steps each,
cadence 2, nothing fails, signal never set. -/
def c4run : RunResult :=
  ⟨2, 0, 200, none, false,
   [Event.epochStart 1, Event.progressSave 1 100,
    Event.epochStart 2, Event.progressSave 2 200, Event.checkpointSave 2 200,
    Event.finalSave 200, Event.summaryLog 2 200 200]⟩

/-- Witness for C4: all hypotheses hold at a concrete two-epoch run with cadence 2 and
the conclusion specialises to the checkpoint of epoch 2 at cumulative count 200. -/
theorem c4_checkpoint_cadence_witness :
    ((0 : Int) < 2 ∧ NoFailures envTrivial ∧
      do_training ⟨2, 100, 2, 0⟩ envTrivial 2 = some c4run) ∧
    (shouldCheckpoint 7 3 = decide ((3 : Int) ≤ ((7 : Nat) : Int)) ∧
      (Event.checkpointSave 2 200 ∈ c4run.events ↔
        (1 ≤ 2 ∧ 2 ≤ c4run.numEpochs ∧ (2 : Int).toNat ∣ 2 ∧
         (200 : Int) = 0 + ((2 : Nat) : Int) * 100))) :=
  ⟨⟨by decide, fun n => ⟨rfl, rfl, rfl⟩, by decide⟩,
   c4_checkpoint_cadence 7 3 ⟨2, 100, 2, 0⟩ envTrivial 2 c4run 2 200 (by decide)
     (fun n => ⟨rfl, rfl, rfl⟩) (by decide)⟩

/-- Claim C5: starting fresh with cadence 5, target 12 epochs, 100 steps per epoch and
the shutdown signal never set, the run executes exactly 12 epochs, produces exactly the
two checkpoints named `checkpoint-500` and `checkpoint-1000`, persists a final
iteration count of 1200, and ends in the Completed state (the loop exits because the
epoch target was reached, with no failure and no signal). -/
theorem c5_scenario :
    (do_training ⟨12, 100, 5, 0⟩ envTrivial 12).map RunResult.numEpochs = some 12 ∧
    (do_training ⟨12, 100, 5, 0⟩ envTrivial 12).map RunResult.iters = some 1200 ∧
    (do_training ⟨12, 100, 5, 0⟩ envTrivial 12).map
      (fun r => ckptNames r.events) = some ["checkpoint-500", "checkpoint-1000"] ∧
    (do_training ⟨12, 100, 5, 0⟩ envTrivial 12).map
      (fun r => decide (Event.finalSave 1200 ∈ r.events)) = some true ∧
    (do_training ⟨12, 100, 5, 0⟩ envTrivial 12).map RunResult.failure = some none ∧
    (do_training ⟨12, 100, 5, 0⟩ envTrivial 12).map RunResult.runState =
      some RunState.completed :=
  ⟨rfl, rfl, rfl, rfl, rfl, rfl⟩

/-- Claim C9 counterexample: a checkpoint cadence of 0 is not rejected anywhere - with
cadence 0, target 2 epochs and 100 steps per epoch the run executes both epochs with
no error recorded and even produces a checkpoint after every epoch, refuting that a
non-positive cadence is detected as a configuration error at supervisor start, before
the epoch loop executes any epoch. -/
theorem c9_counterexample :
    (do_training ⟨2, 100, 0, 0⟩ envTrivial 2).map RunResult.numEpochs = some 2 ∧
    (do_training ⟨2, 100, 0, 0⟩ envTrivial 2).map RunResult.failure = some none ∧
    (do_training ⟨2, 100, 0, 0⟩ envTrivial 2).map
      (fun r => ckptNames r.events) = some ["checkpoint-100", "checkpoint-200"] :=
  ⟨rfl, rfl, rfl⟩

/-- Claim C9 (amended): neither `parse_args` (which only types the flag as `int`) nor
`do_training` validates `checkpoint_every_epochs`: a cadence of 0 or a negative value
is accepted, no configuration error exists, the epoch loop runs normally, and because
the line-285 test is `counter >= cadence` a checkpoint is produced after every
completed epoch. -/
theorem c9_amended (p : TrainParams) (env : Env) (fuel : Nat) (r : RunResult) (n : Nat)
    (hC : p.checkpointEveryEpochs ≤ 0) (hnf : NoFailures env)
    (hrun : do_training p env fuel = some r) (h1 : 1 ≤ n) (h2 : n ≤ r.numEpochs) :
    r.failure = none ∧
    Event.checkpointSave n (p.initIterations + (n : Int) * p.trainEpochSteps) ∈
      r.events := by
  obtain ⟨sf, fl, tr, hrl, he1, he2, he3, he4, he5, he6⟩ := do_training_dest p env fuel r hrun
  have hfl : fl = none := noFailures_failure_none p env fuel _ _ _ _ hnf hrl
  subst hfl
  have hch := runLoop_ckpt_nonpos p env hC hnf fuel _ _ _ _ hrl n
    (p.initIterations + (n : Int) * p.trainEpochSteps)
  have hz1 : (⟨0, 0, p.initIterations⟩ : LoopState).numEpochs = 0 := rfl
  have hz2 : (⟨0, 0, p.initIterations⟩ : LoopState).iters = p.initIterations := rfl
  rw [hz1, hz2] at hch
  refine ⟨he4, ?_⟩
  rw [he6, epoch_event_mem _ (by simp [Event.epochOf]) _ _ _ _ _ _ _]
  refine hch.mpr ⟨by omega, by rw [← he1]; exact h2, ?_⟩
  have hcast : ((n - 0 : Nat) : Int) = (n : Int) := by omega
  rw [hcast]

/-- Concrete run used to witness the amended claim C9: cadence 0, two epochs. -/
def c9run : RunResult :=
  ⟨2, 0, 200, none, false,
   [Event.epochStart 1, Event.progressSave 1 100, Event.checkpointSave 1 100,
    Event.epochStart 2, Event.progressSave 2 200, Event.checkpointSave 2 200,
    Event.finalSave 200, Event.summaryLog 2 200 200]⟩

/-- Witness for the amended C9 at cadence 0: the run completes 2 epochs with no error
and epoch 1 has a checkpoint. -/
theorem c9_amended_witness :
    ((0 : Int) ≤ 0 ∧ NoFailures envTrivial ∧
      do_training ⟨2, 100, 0, 0⟩ envTrivial 2 = some c9run ∧ 1 ≤ 1 ∧ 1 ≤ c9run.numEpochs) ∧
    (c9run.failure = none ∧
      Event.checkpointSave 1 ((0 : Int) + ((1 : Nat) : Int) * 100) ∈ c9run.events) :=
  ⟨⟨by decide, fun n => ⟨rfl, rfl, rfl⟩, by decide, by decide, by decide⟩,
   c9_amended ⟨2, 100, 0, 0⟩ envTrivial 2 c9run 1 (by decide)
     (fun n => ⟨rfl, rfl, rfl⟩) (by decide) (by decide) (by decide)⟩

/-- Whether an error report occurs strictly after a summary report in the event
sequence (this is what the spec's "the summary is reported, and afterwards the error
propagates to the operator" would require). -/
def afterSummaryHasError : List Event → Bool
  | [] => false
  | Event.summaryLog _ _ _ :: rest =>
    rest.any (fun ev => decide (ev = Event.errorLog)) || afterSummaryHasError rest
  | _ :: rest => afterSummaryHasError rest

theorem afterSummary_append_epoch (l rest : List Event)
    (hl : ∀ ev ∈ l, (Event.epochOf ev).isSome = true) :
    afterSummaryHasError (l ++ rest) = afterSummaryHasError rest := by
  induction l with
  | nil => rfl
  | cons a l ihl =>
    have ha := hl a (List.mem_cons_self _ _)
    have ihl2 := ihl (fun ev hev => hl ev (List.mem_cons_of_mem _ hev))
    cases a <;> simp_all [afterSummaryHasError, Event.epochOf]

theorem afterSummary_err_tail (b : Bool) (x st c : Int) (a : Nat) :
    afterSummaryHasError (Event.errorLog :: ((if b then [Event.gracefulLog] else []) ++
      [Event.finalSave x, Event.summaryLog a st c])) = false := by
  cases b <;> rfl

/-- Claim C1: if the shutdown signal becomes set while epoch `k` is executing (it is
observed set from the `k`-th loop-condition check onwards and at no earlier check,
i.e. `sigSetAt = some k`), the epoch target allows at least `k` epochs and no external
call fails, then epoch `k` still completes and epoch `k+1` never starts: the run's
epoch count is exactly `k`, the persisted iteration count reflects epoch `k`'s steps,
epoch `k`'s per-epoch progress save occurs, the final save persists the same count,
and no `epochStart (k+1)` event exists.  Because line 264 re-checks the signal before
each epoch and the signal, once set, is never cleared, it is still observed set at
every later check `j ≥ k`, and the run ends in the Stopping state. -/
theorem c1_shutdown_epoch_boundary (p : TrainParams) (env : Env) (k fuel j : Nat)
    (r : RunResult)
    (hset : env.sigSetAt = some k) (hk : 1 ≤ k) (hj : k ≤ j)
    (htgt : ∀ m : Nat, m < k → ((m : Int) < p.targetEpochs ∨ p.targetEpochs < 0))
    (hnf : NoFailures env)
    (hrun : do_training p env fuel = some r) :
    r.numEpochs = k ∧
    r.iters = p.initIterations + (k : Int) * p.trainEpochSteps ∧
    Event.progressSave k (p.initIterations + (k : Int) * p.trainEpochSteps) ∈ r.events ∧
    Event.finalSave (p.initIterations + (k : Int) * p.trainEpochSteps) ∈ r.events ∧
    Event.epochStart (k + 1) ∉ r.events ∧
    sigAt env j = true ∧
    r.runState = RunState.stopping := by
  obtain ⟨sf, fl, tr, hrl, he1, he2, he3, he4, he5, he6⟩ := do_training_dest p env fuel r hrun
  have hfl : fl = none := noFailures_failure_none p env fuel _ _ _ _ hnf hrl
  subst hfl
  obtain ⟨sp1, sp2, sp3, sp4, sp5, sp6, sp7, sp8⟩ := runLoop_spec p env fuel _ _ _ _ hrl
  have hz1 : (⟨0, 0, p.initIterations⟩ : LoopState).numEpochs = 0 := rfl
  have hz2 : (⟨0, 0, p.initIterations⟩ : LoopState).iters = p.initIterations := rfl
  rw [hz1, hz2] at sp2
  rw [hz1] at sp3 sp6 sp7
  have hsig : ∀ m : Nat, sigAt env m = decide (k ≤ m) := by
    intro m; simp [sigAt, hset]
  have hfb : flBound sf none = sf.numEpochs := rfl
  rw [hfb] at sp3 sp6
  have hle : sf.numEpochs ≤ k := by
    by_contra hgt
    push_neg at hgt
    have h6 := (sp6 k (Nat.zero_le _) hgt).1
    rw [hsig] at h6
    simp at h6
  have h5 := sp5 rfl
  have heq : sf.numEpochs = k := by
    rcases Nat.eq_or_lt_of_le hle with h | h
    · exact h
    · exfalso
      have hsf : sigAt env sf.numEpochs = false := by
        rw [hsig]
        simp only [decide_eq_false_iff_not, not_le]
        omega
      unfold loopCond at h5
      rw [hsf] at h5
      simp only [Bool.not_false, Bool.true_and, Bool.or_eq_false_iff,
        decide_eq_false_iff_not] at h5
      rcases htgt sf.numEpochs h with hlt | hneg
      · exact h5.1 hlt
      · exact h5.2 hneg
  have hit : sf.iters = p.initIterations + (k : Int) * p.trainEpochSteps := by
    rw [sp2, heq]
    simp
  refine ⟨?_, ?_, ?_, ?_, ?_, ?_, ?_⟩
  · rw [he1, heq]
  · rw [he3, hit]
  · rw [he6, epoch_event_mem _ (by simp [Event.epochOf]) _ _ _ _ _ _ _]
    have hps := sp7 k (by omega) (by omega) ((hnf k).2.1)
    have hcast : p.initIterations + ((k - 0 : Nat) : Int) * p.trainEpochSteps =
        p.initIterations + (k : Int) * p.trainEpochSteps := by
      simp
    rw [hcast] at hps
    exact hps
  · rw [he6, hit]
    simp [List.mem_append]
  · rw [he6, epoch_event_mem _ (by simp [Event.epochOf]) _ _ _ _ _ _ _]
    intro hmem
    have h3 := (sp3 _ hmem (k + 1) rfl).2
    omega
  · rw [hsig]
    simp only [decide_eq_true_eq]
    omega
  · simp [RunResult.runState, he4, he5, heq, hsig]

/-- Concrete run used to witness claim C1: unbounded target, 100 steps per epoch,
signal set during epoch 2. -/
def c1run : RunResult :=
  ⟨2, 2, 200, none, true,
   [Event.epochStart 1, Event.progressSave 1 100,
    Event.epochStart 2, Event.progressSave 2 200,
    Event.gracefulLog, Event.finalSave 200, Event.summaryLog 2 200 200]⟩

/-- Witness for C1: the signal set during epoch 2 of an unbounded run stops the run
with exactly 2 epochs, 200 persisted steps, and no epoch 3. -/
theorem c1_shutdown_epoch_boundary_witness :
    ((⟨some 2, fun _ => false, fun _ => false, fun _ => false⟩ : Env).sigSetAt = some 2 ∧
      (1 : Nat) ≤ 2 ∧ (2 : Nat) ≤ 3 ∧
      NoFailures ⟨some 2, fun _ => false, fun _ => false, fun _ => false⟩ ∧
      do_training ⟨-1, 100, 5, 0⟩ ⟨some 2, fun _ => false, fun _ => false, fun _ => false⟩ 2 =
        some c1run) ∧
    (c1run.numEpochs = 2 ∧
      c1run.iters = 0 + ((2 : Nat) : Int) * 100 ∧
      Event.progressSave 2 (0 + ((2 : Nat) : Int) * 100) ∈ c1run.events ∧
      Event.finalSave (0 + ((2 : Nat) : Int) * 100) ∈ c1run.events ∧
      Event.epochStart 3 ∉ c1run.events ∧
      sigAt ⟨some 2, fun _ => false, fun _ => false, fun _ => false⟩ 3 = true ∧
      c1run.runState = RunState.stopping) :=
  ⟨⟨rfl, by decide, by decide, fun n => ⟨rfl, rfl, rfl⟩, by decide⟩,
   c1_shutdown_epoch_boundary ⟨-1, 100, 5, 0⟩
     ⟨some 2, fun _ => false, fun _ => false, fun _ => false⟩ 2 2 3 c1run rfl
     (by decide) (by decide) (fun m hm => Or.inr (by decide))
     (fun n => ⟨rfl, rfl, rfl⟩) (by decide)⟩

/-- Claim C2 counterexample: with cadence 1, target 3 epochs, 100 steps per epoch and
the checkpoint write of epoch 1 raising an error, the epoch counter is incremented for
epoch 1 but the `try` of lines 260-292 wraps the whole loop, so the exception ends the
run: epoch 2 never starts even though the target was not reached and the signal was
never set - refuting the claim that the loop proceeds to execute the next epoch after
a checkpoint I/O error. -/
theorem c2_counterexample :
    (do_training ⟨3, 100, 1, 0⟩ ⟨none, fun _ => false, fun _ => false, fun n => n == 1⟩
        5).map RunResult.numEpochs = some 1 ∧
    (do_training ⟨3, 100, 1, 0⟩ ⟨none, fun _ => false, fun _ => false, fun n => n == 1⟩
        5).map RunResult.failure = some (some (1, FailKind.ckptWrite)) ∧
    (do_training ⟨3, 100, 1, 0⟩ ⟨none, fun _ => false, fun _ => false, fun n => n == 1⟩
        5).map (fun r => decide (Event.epochStart 2 ∈ r.events)) = some false :=
  ⟨rfl, rfl, rfl⟩

/-- Claim C2 (amended): if the checkpoint write of epoch `n` (the model snapshot or
the progress-file copy, lines 286-290) raises, the epoch counter has already been
incremented for epoch `n` and epoch `n`'s per-epoch progress save has already
happened, but the run does not proceed to another epoch: the exception leaves the
loop, is caught and logged (lines 293-294), the terminal handling still saves the
metadata and logs the summary, no epoch after `n` ever starts, and the run ends
Failed. -/
theorem c2_checkpoint_failure (p : TrainParams) (env : Env) (fuel : Nat) (r : RunResult)
    (n m : Nat) (hrun : do_training p env fuel = some r)
    (hfl : r.failure = some (n, FailKind.ckptWrite)) (hm : n < m) :
    r.numEpochs = n ∧
    Event.progressSave n r.iters ∈ r.events ∧
    Event.epochStart m ∉ r.events ∧
    Event.errorLog ∈ r.events ∧
    Event.finalSave r.iters ∈ r.events ∧
    Event.summaryLog r.numEpochs ((r.numEpochs : Int) * p.trainEpochSteps) r.iters ∈
      r.events ∧
    r.runState = RunState.failed := by
  obtain ⟨sf, fl, tr, hrl, he1, he2, he3, he4, he5, he6⟩ := do_training_dest p env fuel r hrun
  rw [he4] at hfl
  subst hfl
  obtain ⟨sp1, sp2, sp3, sp4, sp5, sp6, sp7, sp8⟩ := runLoop_spec p env fuel _ _ _ _ hrl
  have hz1 : (⟨0, 0, p.initIterations⟩ : LoopState).numEpochs = 0 := rfl
  rw [hz1] at sp3
  obtain ⟨hn, -⟩ := sp4 n FailKind.ckptWrite rfl
  obtain ⟨-, -, hex3, -⟩ := runLoop_extra p env fuel _ _ _ _ hrl
  have hfb : flBound sf (some (n, FailKind.ckptWrite)) = n := rfl
  rw [hfb] at sp3
  refine ⟨?_, ?_, ?_, ?_, ?_, ?_, ?_⟩
  · rw [he1, hn]
  · rw [he6, he3, epoch_event_mem _ (by simp [Event.epochOf]) _ _ _ _ _ _ _]
    exact hex3 n rfl
  · rw [he6, epoch_event_mem _ (by simp [Event.epochOf]) _ _ _ _ _ _ _]
    intro hmem
    have h3 := (sp3 _ hmem m rfl).2
    omega
  · rw [he6]
    simp [List.mem_append]
  · rw [he6, he3]
    simp [List.mem_append]
  · rw [he6, he3, he1]
    simp [List.mem_append]
  · simp [RunResult.runState, he4]

/-- Concrete run used to witness the amended claim C2: checkpoint write of epoch 1
raises; the run stops after epoch 1 with the error and summary logged. -/
def c2run : RunResult :=
  ⟨1, 1, 100, some (1, FailKind.ckptWrite), false,
   [Event.epochStart 1, Event.progressSave 1 100,
    Event.errorLog, Event.finalSave 100, Event.summaryLog 1 100 100]⟩

/-- Witness for the amended C2 at the concrete failing-checkpoint run. -/
theorem c2_checkpoint_failure_witness :
    (do_training ⟨3, 100, 1, 0⟩ ⟨none, fun _ => false, fun _ => false, fun n => n == 1⟩ 5 =
        some c2run ∧
      c2run.failure = some (1, FailKind.ckptWrite) ∧ (1 : Nat) < 2) ∧
    (c2run.numEpochs = 1 ∧
      Event.progressSave 1 c2run.iters ∈ c2run.events ∧
      Event.epochStart 2 ∉ c2run.events ∧
      Event.errorLog ∈ c2run.events ∧
      Event.finalSave c2run.iters ∈ c2run.events ∧
      Event.summaryLog c2run.numEpochs ((c2run.numEpochs : Int) * 100) c2run.iters ∈
        c2run.events ∧
      c2run.runState = RunState.failed) :=
  ⟨⟨by decide, rfl, by decide⟩,
   c2_checkpoint_failure ⟨3, 100, 1, 0⟩
     ⟨none, fun _ => false, fun _ => false, fun n => n == 1⟩ 5 c2run 1 2
     (by decide) rfl (by decide)⟩

/-- Claim C3 counterexample: with the executor raising in epoch 1 (cadence 5, target 3,
100 steps), the error is reported to the operator by the `except` log line at the
moment it is caught - before the final save and the summary - and `do_training`
returns normally (the exception is swallowed, never re-raised past the handler), so no
error report occurs after the summary: the claim's "persists the progress and reports
the summary, and afterwards the error propagates to the operator" ordering is false on
the code. -/
theorem c3_counterexample :
    (do_training ⟨3, 100, 5, 0⟩ ⟨none, fun n => n == 1, fun _ => false, fun _ => false⟩
        5).map RunResult.events =
      some [Event.epochStart 1, Event.errorLog, Event.finalSave 0,
            Event.summaryLog 0 0 0] ∧
    (do_training ⟨3, 100, 5, 0⟩ ⟨none, fun n => n == 1, fun _ => false, fun _ => false⟩
        5).map (fun r => afterSummaryHasError r.events) = some false ∧
    (do_training ⟨3, 100, 5, 0⟩ ⟨none, fun n => n == 1, fun _ => false, fun _ => false⟩
        5).map (fun r => decide (Event.errorLog ∈ r.events)) = some true :=
  ⟨rfl, rfl, rfl⟩

/-- Claim C3 (amended): when the executor (`model.train`) raises during epoch `n`, the
run is fatal: the loop stops (the epoch counter stays at `n - 1` and no epoch after
`n` ever starts), the `except` handler logs the error at the moment it catches it -
this log line, not a re-raised exception, is how the operator sees the error - and the
terminal handling still persists the best-known progress one final time and reports
the epoch/step summary.  The operator therefore sees the error in addition to the
summary, with the error report preceding the summary (no error report occurs after
it), and the run ends Failed. -/
theorem c3_executor_error (p : TrainParams) (env : Env) (fuel : Nat) (r : RunResult)
    (n m : Nat) (hrun : do_training p env fuel = some r)
    (hfl : r.failure = some (n, FailKind.train)) (hm : n ≤ m) :
    r.numEpochs + 1 = n ∧
    Event.epochStart n ∈ r.events ∧
    Event.epochStart (m + 1) ∉ r.events ∧
    Event.errorLog ∈ r.events ∧
    Event.finalSave r.iters ∈ r.events ∧
    Event.summaryLog r.numEpochs ((r.numEpochs : Int) * p.trainEpochSteps) r.iters ∈
      r.events ∧
    afterSummaryHasError r.events = false ∧
    r.runState = RunState.failed := by
  obtain ⟨sf, fl, tr, hrl, he1, he2, he3, he4, he5, he6⟩ := do_training_dest p env fuel r hrun
  rw [he4] at hfl
  subst hfl
  obtain ⟨sp1, sp2, sp3, sp4, sp5, sp6, sp7, sp8⟩ := runLoop_spec p env fuel _ _ _ _ hrl
  have hz1 : (⟨0, 0, p.initIterations⟩ : LoopState).numEpochs = 0 := rfl
  rw [hz1] at sp3
  obtain ⟨hn, -⟩ := sp4 n FailKind.train rfl
  obtain ⟨-, hex2, -, hex4⟩ := runLoop_extra p env fuel _ _ _ _ hrl
  have hfb : flBound sf (some (n, FailKind.train)) = n := rfl
  rw [hfb] at sp3
  refine ⟨?_, ?_, ?_, ?_, ?_, ?_, ?_, ?_⟩
  · rw [he1, hn]
  · rw [he6, epoch_event_mem _ (by simp [Event.epochOf]) _ _ _ _ _ _ _]
    exact hex4 n rfl
  · rw [he6, epoch_event_mem _ (by simp [Event.epochOf]) _ _ _ _ _ _ _]
    intro hmem
    have h3 := (sp3 _ hmem (m + 1) rfl).2
    omega
  · rw [he6]
    simp [List.mem_append]
  · rw [he6, he3]
    simp [List.mem_append]
  · rw [he6, he3, he1]
    simp [List.mem_append]
  · rw [he6, List.append_assoc, List.append_assoc,
      afterSummary_append_epoch _ _ hex2]
    simp only [Option.isSome_some, if_true]
    exact afterSummary_err_tail _ _ _ _ _
  · simp [RunResult.runState, he4]

/-- Concrete run used to witness the amended claim C3: the executor raises in epoch 1. -/
def c3run : RunResult :=
  ⟨0, 0, 0, some (1, FailKind.train), false,
   [Event.epochStart 1, Event.errorLog, Event.finalSave 0, Event.summaryLog 0 0 0]⟩

/-- Witness for the amended C3 at the concrete failing-executor run. -/
theorem c3_executor_error_witness :
    (do_training ⟨3, 100, 5, 0⟩ ⟨none, fun n => n == 1, fun _ => false, fun _ => false⟩ 5 =
        some c3run ∧
      c3run.failure = some (1, FailKind.train) ∧ (1 : Nat) ≤ 1) ∧
    (c3run.numEpochs + 1 = 1 ∧
      Event.epochStart 1 ∈ c3run.events ∧
      Event.epochStart 2 ∉ c3run.events ∧
      Event.errorLog ∈ c3run.events ∧
      Event.finalSave c3run.iters ∈ c3run.events ∧
      Event.summaryLog c3run.numEpochs ((c3run.numEpochs : Int) * 100) c3run.iters ∈
        c3run.events ∧
      afterSummaryHasError c3run.events = false ∧
      c3run.runState = RunState.failed) :=
  ⟨⟨by decide, rfl, by decide⟩,
   c3_executor_error ⟨3, 100, 5, 0⟩
     ⟨none, fun n => n == 1, fun _ => false, fun _ => false⟩ 5 c3run 1 1
     (by decide) rfl (by decide)⟩

/-- After `save`'s operation sequence runs, the destination file holds exactly the
JSON rendering of the metadata. -/
theorem save_writes (m : TrainingMetadata) (out_file : String) (fs : String → String) :
    applyOps (m.saveOps out_file) fs out_file = m.saveDoc.render := by
  simp [TrainingMetadata.saveOps, applyOps, applyOp]

/-- Claim C6: loading an existing progress file whose recorded tokenizer index differs
from the invocation's tokenizer index `B` does not fail (lines 249-254): the resulting
in-memory metadata keeps the loaded iteration count unchanged, its tokenizer index is
overwritten with `B`, and exactly one warning is logged. -/
theorem c6_tokenizer_override (stored : TrainingMetadata) (B : LocalPath)
    (hne : stored.tokenizer_index ≠ B) :
    initTrainingMeta (some stored) B = (⟨stored.training_iterations, B⟩, 1) := by
  simp [initTrainingMeta, hne]

/-- Witness for C6: a stored metadata with tokenizer index `tok-a.json` loaded by an
invocation using `tok-b.json` keeps its 7 iterations, takes index `tok-b.json`, and
logs one warning. -/
theorem c6_tokenizer_override_witness :
    (⟨7, ⟨"tok-a.json"⟩⟩ : TrainingMetadata).tokenizer_index ≠ ⟨"tok-b.json"⟩ ∧
    initTrainingMeta (some ⟨7, ⟨"tok-a.json"⟩⟩) ⟨"tok-b.json"⟩ =
      (⟨7, ⟨"tok-b.json"⟩⟩, 1) :=
  ⟨by decide, c6_tokenizer_override ⟨7, ⟨"tok-a.json"⟩⟩ ⟨"tok-b.json"⟩ (by decide)⟩

/-- Claim C7 counterexample: `TrainingMetadata.save` opens the destination with mode
"w", which truncates the file in place; for the concrete metadata
`⟨3, "tok.json"⟩` written over a file holding `"OLD"`, the reader-visible content
after the first operation (the truncation) is the empty string, which is neither the
old content nor the final serialised content - so the save is not atomic for
concurrent readers. -/
theorem c7_counterexample :
    ¬ AtomicForReaders
        ((⟨3, ⟨"tok.json"⟩⟩ : TrainingMetadata).saveOps "training-metadata.json")
        "training-metadata.json" := by
  intro h
  rcases h (fun _ => "OLD") 1 with hc | hc
  · exact absurd hc (by decide)
  · exact absurd hc (by decide)

/-- Claim C7 (amended): `save` overwrites the destination in place rather than
atomically: its operation sequence contains no rename (so no write-to-temp-then-rename
discipline), it ends with the file holding exactly the JSON serialisation of the
metadata, and a reader scheduled between the initial truncation and the write observes
an empty file rather than the old or the new content. -/
theorem c7_save_in_place (m : TrainingMetadata) (out_file : String)
    (fs : String → String) :
    applyOps (m.saveOps out_file) fs out_file = m.saveDoc.render ∧
    (∀ op ∈ m.saveOps out_file, ∀ src dst, op ≠ FsOp.rename src dst) ∧
    applyOps ((m.saveOps out_file).take 1) fs out_file = "" := by
  refine ⟨save_writes m out_file fs, ?_, ?_⟩
  · intro op hop src dst
    simp only [TrainingMetadata.saveOps, List.mem_cons, List.not_mem_nil,
      or_false] at hop
    rcases hop with rfl | rfl | rfl <;> simp
  · simp [TrainingMetadata.saveOps, applyOps, applyOp]

/-- Claim C8: persistence round-trips and is idempotent - for every metadata value,
loading the document `save` writes restores the same iteration count and the same
tokenizer reference, and saving the same value twice in a row leaves exactly the same
file content as saving it once (the serialisation is a pure function of the value, so
both saves write identical output). -/
theorem c8_save_load_roundtrip (m : TrainingMetadata) (out_file : String)
    (fs : String → String) :
    TrainingMetadata.loadDoc (TrainingMetadata.saveDoc m) = m ∧
    applyOps (m.saveOps out_file ++ m.saveOps out_file) fs out_file =
      applyOps (m.saveOps out_file) fs out_file := by
  constructor
  · obtain ⟨it, ⟨path⟩⟩ := m
    rfl
  · rw [show applyOps (m.saveOps out_file ++ m.saveOps out_file) fs =
        applyOps (m.saveOps out_file) (applyOps (m.saveOps out_file) fs) from
      List.foldl_append _ _ _ _]
    rw [save_writes, save_writes]

/-- Claim C10: the operator console strips leading and trailing whitespace from every
input line before matching, and after stripping the matching is exact and
case-sensitive (lines 322-333): the action for a line is decided solely by comparing
its stripped form to `quit` and `help`, so `"  quit  "` sets the shutdown signal and
ends the console loop, `" help "` prints the command list, and `"Quit"` is reported as
unrecognized, does not set the signal, and does not end the loop (the next line is
still processed). -/
theorem c10_console_strip (line : String) :
    (do_management_step line = ConsoleAction.quitCmd ↔ pyStrip line = "quit") ∧
    (do_management_step line = ConsoleAction.helpCmd ↔ pyStrip line = "help") ∧
    (pyStrip line ≠ "quit" → pyStrip line ≠ "help" →
      do_management_step line = ConsoleAction.unrecognized (pyStrip line)) ∧
    do_management_step "  quit  " = ConsoleAction.quitCmd ∧
    do_management ["  quit  "] = (true, [ConsoleAction.quitCmd]) ∧
    do_management_step " help " = ConsoleAction.helpCmd ∧
    do_management_step "Quit" = ConsoleAction.unrecognized "Quit" ∧
    ConsoleAction.setsSignal (do_management_step "Quit") = false ∧
    do_management ["Quit", "x"] =
      (false, [ConsoleAction.unrecognized "Quit", ConsoleAction.unrecognized "x"]) := by
  refine ⟨?_, ?_, ?_, by decide, by decide, by decide, by decide, by decide, by decide⟩
  · by_cases h1 : pyStrip line = "quit"
    · simp [do_management_step, h1]
    · by_cases h2 : pyStrip line = "help"
      · simp [do_management_step, h1, h2]
      · simp [do_management_step, h1, h2]
  · by_cases h1 : pyStrip line = "quit"
    · simp [do_management_step, h1]
    · by_cases h2 : pyStrip line = "help"
      · simp [do_management_step, h1, h2]
      · simp [do_management_step, h1, h2]
  · intro h1 h2
    simp [do_management_step, h1, h2]

end BrapBrain
